import Mathlib

/-!
Verification development for the naslock repository (Rust).

Shallow embedding of:
  - src/keepass_store.rs : selector parsing, UUID parsing, entry lookup,
    field-alias resolution;
  - src/truenas.rs : tolerant response parsing (unlock / lock / job status),
    job polling step logic, the POST-then-GET job query fallback, and the
    serialization shape of the unlock request.

Strings are modelled as Lean `String` (a list of unicode scalar values);
where the Rust source performs byte-indexed slicing we model UTF-8 byte
lengths explicitly.  Machine integers (`i64`) are modelled as `Int` with
explicit range checks.  Third-party library functions used by the source
(`serde_json::from_str`, `str::parse`, `uuid::Uuid::parse_str`,
`keepass::db::Entry::get`) are embedded following their documented
behaviour.
-/

namespace Naslock

/-! ## Character and string utilities -/

/-- Rust `char::is_whitespace` (the Unicode White_Space property). -/
def isRustWs (c : Char) : Bool :=
  decide (c.toNat = 32 ∨ (9 ≤ c.toNat ∧ c.toNat ≤ 13) ∨ c.toNat = 133 ∨
    c.toNat = 160 ∨ c.toNat = 5760 ∨ (8192 ≤ c.toNat ∧ c.toNat ≤ 8202) ∨
    c.toNat = 8232 ∨ c.toNat = 8233 ∨ c.toNat = 8239 ∨ c.toNat = 8287 ∨
    c.toNat = 12288)

/-- Rust `str::trim` on a character list: drop whitespace at both ends. -/
def rustTrim (cs : List Char) : List Char :=
  ((cs.dropWhile isRustWs).reverse.dropWhile isRustWs).reverse

/-- Rust `str::trim` as a `String` operation. -/
def rustTrimS (s : String) : String := String.mk (rustTrim s.data)

/-- Rust `char::to_ascii_lowercase`. -/
def asciiLowerChar (c : Char) : Char :=
  if 65 ≤ c.toNat ∧ c.toNat ≤ 90 then Char.ofNat (c.toNat + 32) else c

/-- Rust `str::to_ascii_lowercase`. -/
def asciiLowerS (s : String) : String := String.mk (s.data.map asciiLowerChar)

/-- Rust `str::trim_matches(m)`: strip every leading and trailing `m`. -/
def trimMatchesChar (m : Char) (cs : List Char) : List Char :=
  ((cs.dropWhile (fun c => c == m)).reverse.dropWhile (fun c => c == m)).reverse

/-- ASCII decimal digit test. -/
def isDigitC (c : Char) : Bool := decide (48 ≤ c.toNat ∧ c.toNat ≤ 57)

/-- Rust `char::is_ascii_hexdigit`. -/
def isHexDigitC (c : Char) : Bool :=
  decide ((48 ≤ c.toNat ∧ c.toNat ≤ 57) ∨ (97 ≤ c.toNat ∧ c.toNat ≤ 102) ∨
    (65 ≤ c.toNat ∧ c.toNat ≤ 70))

/-- Numeric value of a hex digit (0 for non-digits; guarded by `isHexDigitC`). -/
def hexValC (c : Char) : Nat :=
  if 48 ≤ c.toNat ∧ c.toNat ≤ 57 then c.toNat - 48
  else if 97 ≤ c.toNat ∧ c.toNat ≤ 102 then c.toNat - 87
  else if 65 ≤ c.toNat ∧ c.toNat ≤ 70 then c.toNat - 55
  else 0

/-- UTF-8 byte length of one unicode scalar value. -/
def utf8Len (c : Char) : Nat :=
  if c.toNat < 128 then 1
  else if c.toNat < 2048 then 2
  else if c.toNat < 65536 then 3
  else 4

/-- UTF-8 byte length of a character list (Rust `str::len`). -/
def utf8Length : List Char → Nat
  | [] => 0
  | c :: r => utf8Len c + utf8Length r

/-- Rust byte slicing `&s[n..]`: drop `n` bytes; `none` when `n` is not on a
character boundary (where the Rust operation would panic). -/
def byteSlice : List Char → Nat → Option (List Char)
  | cs, 0 => some cs
  | [], _ + 1 => none
  | c :: cs, n + 1 =>
    if utf8Len c ≤ n + 1 then byteSlice cs (n + 1 - utf8Len c) else none

/-- Rust `str::parse::<i64>`: optional sign, one or more ASCII digits,
64-bit signed range check. -/
def parseI64 (s : String) : Option Int :=
  let cs := s.data
  let (neg, digits) :=
    match cs with
    | c :: rest =>
      if c.toNat = 45 then (true, rest)
      else if c.toNat = 43 then (false, rest)
      else (false, cs)
    | [] => (false, cs)
  if digits = [] then none
  else if digits.all isDigitC then
    let n : Nat := digits.foldl (fun a c => a * 10 + (c.toNat - 48)) 0
    let v : Int := if neg then -(n : Int) else (n : Int)
    if -(2 ^ 63) ≤ v ∧ v ≤ 2 ^ 63 - 1 then some v else none
  else none

/-- Rust `str::parse::<bool>`: exactly "true" or "false". -/
def parseBoolRust (s : String) : Option Bool :=
  if s = "true" then some true
  else if s = "false" then some false
  else none

/-! ## UUID parsing (uuid crate `Uuid::parse_str`) and
`parse_uuid` from src/keepass_store.rs -/

/-- Consume hex digits accumulating their value; fails on any non-hex digit. -/
def parseHexAcc : List Char → Nat → Option Nat
  | [], acc => some acc
  | c :: rest, acc =>
    if isHexDigitC c then parseHexAcc rest (acc * 16 + hexValC c) else none

/-- Value of a hex-digit string (used to state theorems about UUID parsing). -/
def hexValue (cs : List Char) : Nat :=
  cs.foldl (fun a c => a * 16 + hexValC c) 0

/-- Split a character list at hyphens. -/
def splitOnDash : List Char → List (List Char)
  | [] => [[]]
  | c :: rest =>
    if c.toNat = 45 then [] :: splitOnDash rest
    else
      match splitOnDash rest with
      | h :: t => (c :: h) :: t
      | [] => [[c]]

/-- Hyphenated UUID form `8-4-4-4-12`. -/
def uuidFromHyphenated (cs : List Char) : Option Nat :=
  match splitOnDash cs with
  | [a, b, c, d, e] =>
    if a.length = 8 ∧ b.length = 4 ∧ c.length = 4 ∧ d.length = 4 ∧
        e.length = 12 then
      parseHexAcc (a ++ b ++ c ++ d ++ e) 0
    else none
  | _ => none

/-- uuid crate `Uuid::parse_str` (per its documented accepted formats:
simple 32-hex, braced hyphenated, URN, hyphenated); the UUID value is
its 128-bit number. -/
def uuidParseStr (cs : List Char) : Option Nat :=
  if cs.length = 32 then parseHexAcc cs 0
  else if cs.head? = some '{' then
    if cs.getLast? = some '}' then uuidFromHyphenated (cs.drop 1).dropLast
    else none
  else if cs.take 9 = "urn:uuid:".data then uuidFromHyphenated (cs.drop 9)
  else uuidFromHyphenated cs

/-- `parse_uuid` from src/keepass_store.rs: trim, strip braces, try
`Uuid::parse_str`; else remove hyphens and accept exactly 32 hex digits. -/
def parse_uuid (input : String) : Option Nat :=
  let trimmed := trimMatchesChar '}' (trimMatchesChar '{' (rustTrim input.data))
  match uuidParseStr trimmed with
  | some u => some u
  | none =>
    let cleaned := trimmed.filter (fun c => decide (c.toNat ≠ 45))
    if cleaned.length = 32 ∧ cleaned.all isHexDigitC then uuidParseStr cleaned
    else none

/-! ## KeePass entries and selector parsing (src/keepass_store.rs) -/

/-- A KeePass entry: its UUID (128-bit value) and its field map.  The
keepass crate's `Entry::get` is an exact-key `HashMap` lookup. -/
structure Entry where
  uuid : Nat
  fields : List (String × String)
deriving DecidableEq

/-- keepass crate `Entry::get`: exact (case-sensitive) key lookup. -/
def Entry.get (e : Entry) (k : String) : Option String :=
  (e.fields.find? (fun p => p.1 == k)).map (fun p => p.2)

def Entry.get_title (e : Entry) : Option String := e.get "Title"

def Entry.get_username (e : Entry) : Option String := e.get "UserName"

def Entry.get_password (e : Entry) : Option String := e.get "Password"

def Entry.get_url (e : Entry) : Option String := e.get "URL"

/-- A node of the store's tree traversal: entries are inspected, groups are
skipped by `find_entry`. -/
inductive Node
  | entry (e : Entry)
  | group
deriving DecidableEq

/-- The opened database, as the sequence of nodes its root-group iteration
yields. -/
structure KeePassStore where
  root : List Node

/-- `entry_field` from src/keepass_store.rs. -/
def entry_field (e : Entry) (field : String) : Option String :=
  let field_trimmed := rustTrimS field
  let field_lower := asciiLowerS field_trimmed
  match field_lower with
  | "title" => e.get_title
  | "username" | "user_name" | "user-name" | "user" => e.get_username
  | "password" | "pass" => e.get_password
  | "url" => e.get_url
  | _ => e.get field_trimmed

inductive SelectorMode
  | auto
  | title
  | uuid
deriving DecidableEq

/-- `parse_selector` from src/keepass_store.rs, character-level model:
lowercase a copy, test the two prefixes, recover the original-case token
as a character-drop, and trim it. -/
def parse_selector (input : String) : SelectorMode × String :=
  let lowered := input.data.map asciiLowerChar
  if lowered.take 5 = "uuid:".data then
    (SelectorMode.uuid, rustTrimS (String.mk (input.data.drop 5)))
  else if lowered.take 6 = "title:".data then
    (SelectorMode.title, rustTrimS (String.mk (input.data.drop 6)))
  else (SelectorMode.auto, input)

/-- `parse_selector`, byte-level model: the original-case token is recovered
by the byte slice `&input[input.len() - rest.len()..]` exactly as in the
source; the slice yields `none` where Rust would panic off a character
boundary. -/
def parse_selector_bytes (input : String) : Option (SelectorMode × String) :=
  let lowered := input.data.map asciiLowerChar
  if lowered.take 5 = "uuid:".data then
    (byteSlice input.data
        (utf8Length input.data - utf8Length (lowered.drop 5))).map
      (fun orig => (SelectorMode.uuid, rustTrimS (String.mk orig)))
  else if lowered.take 6 = "title:".data then
    (byteSlice input.data
        (utf8Length input.data - utf8Length (lowered.drop 6))).map
      (fun orig => (SelectorMode.title, rustTrimS (String.mk orig)))
  else some (SelectorMode.auto, input)

/-- First entry among the nodes satisfying `p` (the source's for-loops over
`&self.db.root` with an early return). -/
def findFirstEntry? : List Node → (Entry → Bool) → Option Entry
  | [], _ => none
  | Node.entry e :: rest, p =>
    if p e then some e else findFirstEntry? rest p
  | Node.group :: rest, p => findFirstEntry? rest p

/-- `KeePassStore::find_entry` from src/keepass_store.rs. -/
def find_entry (store : KeePassStore) (selector : String) : Option Entry :=
  let selector := rustTrimS selector
  match parse_selector selector with
  | (SelectorMode.uuid, token) =>
    match parse_uuid token with
    | none => none
    | some u => findFirstEntry? store.root (fun e => decide (e.uuid = u))
  | (SelectorMode.title, token) =>
    findFirstEntry? store.root (fun e => decide (e.get_title = some token))
  | (SelectorMode.auto, token) =>
    let u? := parse_uuid token
    findFirstEntry? store.root (fun e =>
      (match u? with
       | some u => decide (e.uuid = u)
       | none => false) || decide (e.get_title = some token))

/-! ## JSON values (serde_json::Value) and parsing (serde_json::from_str) -/

/-- A serde_json `Number`: the result of `as_i64` and its `to_string`
rendering.  (Float re-rendering is approximated by the source lexeme;
no claim depends on the rendering of non-integer numbers.) -/
structure JNumber where
  asI64 : Option Int
  repr : String
deriving DecidableEq

/-- serde_json `Value`.  Objects are key-value lists with unique keys
(the parser collapses duplicate keys by replacement, as a map insert
does). -/
inductive JValue
  | null
  | bool (b : Bool)
  | num (n : JNumber)
  | str (s : String)
  | arr (items : List JValue)
  | obj (fields : List (String × JValue))

/-- Map lookup on an object's fields. -/
def objGet (fields : List (String × JValue)) (k : String) : Option JValue :=
  (fields.find? (fun p => p.1 == k)).map (fun p => p.2)

/-- Map insert with replacement (serde_json's `Map::insert`). -/
def insertReplace (fields : List (String × JValue)) (k : String) (v : JValue) :
    List (String × JValue) :=
  if fields.any (fun p => p.1 == k) then
    fields.map (fun p => if p.1 == k then (p.1, v) else p)
  else fields ++ [(k, v)]

/-- Build an object map from parsed members, later duplicates replacing
earlier ones. -/
def objFromMembers (ms : List (String × JValue)) : List (String × JValue) :=
  ms.foldl (fun acc kv => insertReplace acc kv.1 kv.2) []

def JValue.asI64 : JValue → Option Int
  | .num n => n.asI64
  | _ => none

def JValue.asStr : JValue → Option String
  | .str s => some s
  | _ => none

def JValue.asBool : JValue → Option Bool
  | .bool b => some b
  | _ => none

def JValue.asArr : JValue → Option (List JValue)
  | .arr items => some items
  | _ => none

def JValue.asObj : JValue → Option (List (String × JValue))
  | .obj fields => some fields
  | _ => none

def JValue.asNum : JValue → Option JNumber
  | .num n => some n
  | _ => none

/-- JSON whitespace (space, tab, line feed, carriage return). -/
def isJsonWs (c : Char) : Bool :=
  decide (c.toNat = 32 ∨ c.toNat = 9 ∨ c.toNat = 10 ∨ c.toNat = 13)

def skipWs (cs : List Char) : List Char := cs.dropWhile isJsonWs

/-- Hex value of four hex digits, or `none`. -/
def hex4? (a b c d : Char) : Option Nat :=
  if isHexDigitC a ∧ isHexDigitC b ∧ isHexDigitC c ∧ isHexDigitC d then
    some (((hexValC a * 16 + hexValC b) * 16 + hexValC c) * 16 + hexValC d)
  else none

/-- JSON string body after the opening quote, with escape sequences
(including surrogate pairs); returns the string and the rest after the
closing quote. -/
def parseStrBody : List Char → List Char → Option (String × List Char)
  | [], _ => none
  | c :: rest, acc =>
    if c.toNat = 34 then some (String.mk acc.reverse, rest)
    else if c.toNat = 92 then
      match rest with
      | [] => none
      | e :: r2 =>
        if e.toNat = 34 then parseStrBody r2 (Char.ofNat 34 :: acc)
        else if e.toNat = 92 then parseStrBody r2 (Char.ofNat 92 :: acc)
        else if e.toNat = 47 then parseStrBody r2 (Char.ofNat 47 :: acc)
        else if e = 'b' then parseStrBody r2 (Char.ofNat 8 :: acc)
        else if e = 'f' then parseStrBody r2 (Char.ofNat 12 :: acc)
        else if e = 'n' then parseStrBody r2 (Char.ofNat 10 :: acc)
        else if e = 'r' then parseStrBody r2 (Char.ofNat 13 :: acc)
        else if e = 't' then parseStrBody r2 (Char.ofNat 9 :: acc)
        else if e = 'u' then
          match r2 with
          | a :: b :: c2 :: d :: r3 =>
            match hex4? a b c2 d with
            | none => none
            | some n =>
              if 55296 ≤ n ∧ n ≤ 56319 then
                match r3 with
                | s1 :: s2 :: a2 :: b2 :: c3 :: d2 :: r4 =>
                  if s1.toNat = 92 ∧ s2 = 'u' then
                    match hex4? a2 b2 c3 d2 with
                    | none => none
                    | some m =>
                      if 56320 ≤ m ∧ m ≤ 57343 then
                        parseStrBody r4
                          (Char.ofNat (65536 + (n - 55296) * 1024 + (m - 56320)) :: acc)
                      else none
                  else none
                | _ => none
              else if 56320 ≤ n ∧ n ≤ 57343 then none
              else parseStrBody r3 (Char.ofNat n :: acc)
          | _ => none
        else none
    else if c.toNat < 32 then none
    else parseStrBody rest (c :: acc)

/-- JSON fraction part: `.digits` or nothing. -/
def lexFrac : List Char → Option (List Char × List Char)
  | '.' :: r =>
    let ds := r.takeWhile isDigitC
    if ds = [] then none else some (ds, r.dropWhile isDigitC)
  | cs => some ([], cs)

/-- JSON exponent part: `[eE][+-]?digits` or nothing; returns whether an
exponent was present. -/
def lexExp : List Char → Option (Bool × List Char)
  | c :: r =>
    if c.toNat = 101 ∨ c.toNat = 69 then
      let r2 :=
        match r with
        | s :: r3 => if s.toNat = 43 ∨ s.toNat = 45 then r3 else r
        | [] => r
      let ds := r2.takeWhile isDigitC
      if ds = [] then none else some (true, r2.dropWhile isDigitC)
    else some (false, c :: r)
  | [] => some (false, [])

/-- JSON number: serde_json stores an in-range integer literal as `i64`
(so `as_i64` succeeds exactly then); other numbers have `as_i64 = none`. -/
def parseNum (cs : List Char) : Option (JValue × List Char) :=
  let (neg, cs1) :=
    match cs with
    | c :: r => if c.toNat = 45 then (true, r) else (false, cs)
    | [] => (false, cs)
  let intDigits := cs1.takeWhile isDigitC
  let cs2 := cs1.dropWhile isDigitC
  if intDigits = [] then none
  else if 2 ≤ intDigits.length ∧ intDigits.head? = some '0' then none
  else
    match lexFrac cs2 with
    | none => none
    | some (fracDigits, cs3) =>
      match lexExp cs3 with
      | none => none
      | some (hasExp, cs4) =>
        let isInt := fracDigits = [] ∧ hasExp = false
        let n : Nat := intDigits.foldl (fun a c => a * 10 + (c.toNat - 48)) 0
        let v : Int := if neg then -(n : Int) else (n : Int)
        let asI64 : Option Int :=
          if isInt ∧ -(2 ^ 63) ≤ v ∧ v ≤ 2 ^ 63 - 1 then some v else none
        let lexeme := cs.take (cs.length - cs4.length)
        let rendering :=
          match asI64 with
          | some i => toString i
          | none => String.mk lexeme
        some (JValue.num ⟨asI64, rendering⟩, cs4)

mutual

/-- One JSON value (recursive descent with fuel). -/
def parseVal : Nat → List Char → Option (JValue × List Char)
  | 0, _ => none
  | fuel + 1, cs =>
    match skipWs cs with
    | 'n' :: 'u' :: 'l' :: 'l' :: rest => some (JValue.null, rest)
    | 't' :: 'r' :: 'u' :: 'e' :: rest => some (JValue.bool true, rest)
    | 'f' :: 'a' :: 'l' :: 's' :: 'e' :: rest => some (JValue.bool false, rest)
    | '"' :: rest =>
      (match parseStrBody rest [] with
       | some (s, r) => some (JValue.str s, r)
       | none => none)
    | '[' :: rest =>
      (match skipWs rest with
       | ']' :: r2 => some (JValue.arr [], r2)
       | _ =>
         match parseElems fuel rest with
         | some (vs, r2) => some (JValue.arr vs, r2)
         | none => none)
    | '{' :: rest =>
      (match skipWs rest with
       | '}' :: r2 => some (JValue.obj [], r2)
       | _ =>
         match parseMembers fuel rest with
         | some (ms, r2) => some (JValue.obj (objFromMembers ms), r2)
         | none => none)
    | c :: rest =>
      if c.toNat = 45 ∨ isDigitC c then parseNum (c :: rest) else none
    | [] => none

/-- Comma-separated array elements up to the closing bracket. -/
def parseElems : Nat → List Char → Option (List JValue × List Char)
  | 0, _ => none
  | fuel + 1, cs =>
    match parseVal fuel cs with
    | none => none
    | some (v, rest) =>
      match skipWs rest with
      | ',' :: r2 =>
        (match parseElems fuel r2 with
         | some (vs, r3) => some (v :: vs, r3)
         | none => none)
      | ']' :: r2 => some ([v], r2)
      | _ => none

/-- Comma-separated object members up to the closing brace. -/
def parseMembers : Nat → List Char →
    Option (List (String × JValue) × List Char)
  | 0, _ => none
  | fuel + 1, cs =>
    match skipWs cs with
    | '"' :: r =>
      (match parseStrBody r [] with
       | none => none
       | some (k, r2) =>
         match skipWs r2 with
         | ':' :: r3 =>
           (match parseVal fuel r3 with
            | none => none
            | some (v, r4) =>
              match skipWs r4 with
              | ',' :: r5 =>
                (match parseMembers fuel r5 with
                 | some (ms, r6) => some ((k, v) :: ms, r6)
                 | none => none)
              | '}' :: r5 => some ([(k, v)], r5)
              | _ => none)
         | _ => none)
    | _ => none

end

/-- serde_json `from_str::<Value>`: exactly one JSON value with only
trailing whitespace allowed; `none` models a parse error. -/
def jsonFromStr (s : String) : Option JValue :=
  match parseVal (2 * s.data.length + 4) s.data with
  | some (v, rest) => if skipWs rest = [] then some v else none
  | none => none

/-! ## JSON rendering (serde_json `Value::to_string`) -/

/-- Two-digit hex rendering of a byte (for control-character escapes). -/
def hexByte (n : Nat) : String :=
  let dig := fun (k : Nat) =>
    if k < 10 then Char.ofNat (48 + k) else Char.ofNat (87 + k)
  String.mk [dig (n / 16 % 16), dig (n % 16)]

/-- serde_json string escaping. -/
def escChar (c : Char) : String :=
  if c.toNat = 34 then String.mk [Char.ofNat 92, Char.ofNat 34]
  else if c.toNat = 92 then String.mk [Char.ofNat 92, Char.ofNat 92]
  else if c.toNat = 8 then "\\b"
  else if c.toNat = 9 then "\\t"
  else if c.toNat = 10 then "\\n"
  else if c.toNat = 12 then "\\f"
  else if c.toNat = 13 then "\\r"
  else if c.toNat < 32 then "\\u00" ++ hexByte c.toNat
  else String.mk [c]

/-- Render a JSON string literal. -/
def renderJsonString (s : String) : String :=
  String.mk [Char.ofNat 34] ++ String.join (s.data.map escChar) ++
    String.mk [Char.ofNat 34]

/-- serde_json `Value::to_string` (`Display`), compact form. -/
def JValue.render : JValue → String
  | .null => "null"
  | .bool true => "true"
  | .bool false => "false"
  | .num n => n.repr
  | .str s => renderJsonString s
  | .arr items =>
    "[" ++
      String.intercalate "," (items.attach.map (fun x => JValue.render x.1)) ++
      "]"
  | .obj fields =>
    String.mk [Char.ofNat 123] ++
      String.intercalate ","
        (fields.attach.map
          (fun kv => renderJsonString kv.1.1 ++ ":" ++ JValue.render kv.1.2)) ++
      String.mk [Char.ofNat 125]
termination_by v => sizeOf v
decreasing_by
  · have h := List.sizeOf_lt_of_mem x.2
    simp only [JValue.arr.sizeOf_spec]
    omega
  · have h := List.sizeOf_lt_of_mem kv.2
    have h2 : sizeOf kv.1 = 1 + sizeOf kv.1.1 + sizeOf kv.1.2 := rfl
    simp only [JValue.obj.sizeOf_spec]
    omega

/-! ## src/truenas.rs : data model -/

/-- `UnlockSecret` from src/truenas.rs. -/
inductive UnlockSecret
  | passphrase (v : String)
  | key (v : String)
deriving DecidableEq

/-- `UnlockResult` from src/truenas.rs (`#[derive(Default)]`). -/
structure UnlockResult where
  job_id : Option Int := none
  unlocked : List String := []
  failed : List (String × String) := []
  message : Option String := none
deriving DecidableEq

/-- `LockResult` from src/truenas.rs (`#[derive(Default)]`). -/
structure LockResult where
  job_id : Option Int := none
  locked : Bool := false
  message : Option String := none
deriving DecidableEq

/-- `JobInfo` from src/truenas.rs.  The `f64` progress percent is modelled
as the raw JSON number (no claim depends on float arithmetic). -/
structure JobInfo where
  id : Int
  state : Option String := none
  error : Option String := none
  exception : Option String := none
  progress_percent : Option JNumber := none
  progress_description : Option String := none
deriving DecidableEq

/-- `UnlockDataset` from src/truenas.rs (the per-dataset body object). -/
structure UnlockDataset where
  name : String
  passphrase : Option String
  key : Option String

/-- The `(passphrase, key)` pair computed from the secret in
`unlock_dataset` (src/truenas.rs lines 97-100). -/
def unlockSecretFields : UnlockSecret → Option String × Option String
  | .passphrase v => (some v, none)
  | .key v => (none, some v)

/-- The `UnlockDataset` constructed by `unlock_dataset` for one dataset. -/
def unlockRequestDataset (dataset : String) (secret : UnlockSecret) :
    UnlockDataset :=
  { name := dataset
    passphrase := (unlockSecretFields secret).1
    key := (unlockSecretFields secret).2 }

/-- serde serialization of `UnlockDataset`: `name` always present;
`passphrase` and `key` carry `#[serde(skip_serializing_if = "Option::is_none")]`,
so an absent option contributes no key at all. -/
def serializeUnlockDataset (d : UnlockDataset) : List (String × JValue) :=
  [("name", JValue.str d.name)] ++
    (match d.passphrase with
     | some p => [("passphrase", JValue.str p)]
     | none => []) ++
    (match d.key with
     | some k => [("key", JValue.str k)]
     | none => [])

/-- Serialized fields of the per-dataset object for a given dataset and
secret, as sent by `unlock_dataset`. -/
def unlockDatasetFields (dataset : String) (secret : UnlockSecret) :
    List (String × JValue) :=
  serializeUnlockDataset (unlockRequestDataset dataset secret)

/-! ## src/truenas.rs : tolerant response parsing -/

/-- `parse_unlock_response` from src/truenas.rs (lines 253-311).  The Rust
function returns `Result<UnlockResult>`; every exit is `Ok`. -/
def parse_unlock_response (text : String) : Except String UnlockResult :=
  let trimmed := rustTrimS text
  if trimmed = "" then Except.ok {}
  else
    let result : UnlockResult :=
      match jsonFromStr trimmed with
      | some (JValue.obj map) =>
        let r : UnlockResult := {}
        let r :=
          match (objGet map "job_id").bind JValue.asI64 with
          | some j => { r with job_id := some j }
          | none => r
        let r :=
          match (objGet map "unlocked").bind JValue.asArr with
          | some items => { r with unlocked := items.filterMap JValue.asStr }
          | none => r
        let r :=
          match (objGet map "failed").bind JValue.asObj with
          | some fobj =>
            { r with
              failed := fobj.map (fun kv =>
                (kv.1,
                 match kv.2.asStr with
                 | some s => s
                 | none => kv.2.render)) }
          | none => r
        let r :=
          match (objGet map "message").bind JValue.asStr with
          | some m => { r with message := some m }
          | none => r
        r
      | some (JValue.num n) =>
        (match n.asI64 with
         | some j => { job_id := some j }
         | none => { message := some n.repr })
      | some (JValue.str s) =>
        (match parseI64 (rustTrimS s) with
         | some j => { job_id := some j }
         | none => { message := some s })
      | some other => { message := some other.render }
      | none =>
        (match parseI64 trimmed with
         | some j => { job_id := some j }
         | none => { message := some trimmed })
    Except.ok result

/-- `parse_lock_response` from src/truenas.rs (lines 313-365).  Every exit
is `Ok`. -/
def parse_lock_response (text : String) : Except String LockResult :=
  let trimmed := rustTrimS text
  if trimmed = "" then Except.ok {}
  else
    let result : LockResult :=
      match jsonFromStr trimmed with
      | some (JValue.obj map) =>
        let r : LockResult := {}
        let r :=
          match (objGet map "job_id").bind JValue.asI64 with
          | some j => { r with job_id := some j }
          | none => r
        let r :=
          match (objGet map "locked").bind JValue.asBool with
          | some locked => { r with locked := locked }
          | none => r
        let r :=
          match (objGet map "message").bind JValue.asStr with
          | some m => { r with message := some m }
          | none => r
        r
      | some (JValue.bool value) => { locked := value }
      | some (JValue.num n) =>
        (match n.asI64 with
         | some j => { job_id := some j }
         | none => { message := some n.repr })
      | some (JValue.str s) =>
        (match parseI64 (rustTrimS s) with
         | some j => { job_id := some j }
         | none =>
           match parseBoolRust (rustTrimS s) with
           | some value => { locked := value }
           | none => { message := some s })
      | some other => { message := some other.render }
      | none =>
        (match parseI64 trimmed with
         | some j => { job_id := some j }
         | none =>
           match parseBoolRust trimmed with
           | some value => { locked := value }
           | none => { message := some trimmed })
    Except.ok result

/-! ## src/truenas.rs : job-status parsing and query fallback -/

/-- `parse_job_info` from src/truenas.rs: requires an object with an
integer `id`; all other fields are optional.  The `(percent, description)`
pair extraction is written as two lookups on the same `progress` object. -/
def parse_job_info (v : JValue) : Option JobInfo :=
  match v.asObj with
  | none => none
  | some obj =>
    match objGet obj "id" with
    | none => none
    | some idv =>
      match idv.asI64 with
      | none => none
      | some id =>
        let progressObj := (objGet obj "progress").bind JValue.asObj
        some
          { id := id
            state := (objGet obj "state").bind JValue.asStr
            error := (objGet obj "error").bind JValue.asStr
            exception := (objGet obj "exception").bind JValue.asStr
            progress_percent :=
              progressObj.bind (fun p => (objGet p "percent").bind JValue.asNum)
            progress_description :=
              progressObj.bind (fun p => (objGet p "description").bind JValue.asStr) }

/-- `extract_job` from src/truenas.rs: search an array's elements, or the
body itself when it is an object, for a job record with the requested id. -/
def extract_job (v : JValue) (job_id : Int) : Option JobInfo :=
  match v with
  | JValue.arr items =>
    items.findSome? (fun item =>
      Option.filter (fun j => decide (j.id = job_id)) (parse_job_info item))
  | JValue.obj _ =>
    Option.filter (fun j => decide (j.id = job_id)) (parse_job_info v)
  | _ => none

/-- Distinct failure modes of `parse_job_response`. -/
inductive JobQueryError
  | parseFailed (body : String)
  | notFound (jobId : Int)
deriving DecidableEq

/-- `parse_job_response` from src/truenas.rs (lines 446-456). -/
def parse_job_response (text : String) (job_id : Int) :
    Except JobQueryError JobInfo :=
  let trimmed := rustTrimS text
  match jsonFromStr trimmed with
  | none => Except.error (JobQueryError.parseFailed trimmed)
  | some v =>
    match extract_job v job_id with
    | some j => Except.ok j
    | none => Except.error (JobQueryError.notFound job_id)

/-- `get_job` from src/truenas.rs (lines 380-400), abstracted over the
outcomes of the POST and GET attempts: return the POST result when it
succeeds; otherwise fall back to GET; when both fail, combine both
diagnostics.  (The unreachable `(None, Err(get_err))` arm of the source's
final match cannot occur after the early return on POST success.) -/
def get_job (postRes getRes : Except String JobInfo) :
    Except String JobInfo :=
  match postRes with
  | Except.ok job => Except.ok job
  | Except.error postErr =>
    match getRes with
    | Except.ok job => Except.ok job
    | Except.error getErr =>
      Except.error
        ("failed to query job status: post error: " ++ postErr ++
          "; get error: " ++ getErr)

/-! ## src/truenas.rs : wait_for_job polling logic -/

/-- Outcome of one poll iteration of `wait_for_job` (lines 180-215). -/
inductive WaitStep
  | terminal (job : JobInfo)
  | failed (msg : String)
  | pending
deriving DecidableEq

/-- The terminal-state decision of one `wait_for_job` poll: `"SUCCESS"`
returns the job, `"FAILED"`/`"ABORTED"` fails with detail `error`, else
`exception`, else `"job failed"` (the bail message trims the detail),
and anything else keeps polling. -/
def wait_step (jobId : Int) (job : JobInfo) : WaitStep :=
  match job.state with
  | some s =>
    if s = "SUCCESS" then WaitStep.terminal job
    else if s = "FAILED" ∨ s = "ABORTED" then
      let detail :=
        (match job.error with
         | some e => some e
         | none => job.exception).getD "job failed"
      WaitStep.failed
        ("job " ++ toString jobId ++ " failed: " ++ rustTrimS detail)
    else WaitStep.pending
  | none => WaitStep.pending

/-- The `wait_for_job` loop over a sequence of polled job snapshots:
`none` means every snapshot was non-terminal (the real loop would poll
again after its fixed interval). -/
def wait_run (jobId : Int) : List JobInfo → Option (Except String JobInfo)
  | [] => none
  | j :: rest =>
    match wait_step jobId j with
    | WaitStep.terminal job => some (Except.ok job)
    | WaitStep.failed msg => some (Except.error msg)
    | WaitStep.pending => wait_run jobId rest

/-! ## Spec-side definitions (stated from the spec's words, for comparison
with the source embeddings) -/

/-- Case-insensitive, trimmed custom-field lookup, as the spec's words
describe the fallback of `entry_field` ("raw custom-field lookup by
case-insensitive, trimmed name"). -/
def entry_field_ci_spec (e : Entry) (field : String) : Option String :=
  let name := rustTrimS field
  (e.fields.find? (fun p => asciiLowerS p.1 == asciiLowerS name)).map
    (fun p => p.2)

/-- The entries of the store in traversal order. -/
def entriesOf (ns : List Node) : List Entry :=
  ns.filterMap (fun n =>
    match n with
    | Node.entry e => some e
    | Node.group => none)

/-- Auto-mode match condition from the spec: UUID equality (when the token
parses as a UUID) or exact title equality. -/
def autoMatches (tok : String) (e : Entry) : Prop :=
  (∃ u, parse_uuid tok = some u ∧ e.uuid = u) ∨ e.get_title = some tok

instance (tok : String) (e : Entry) : Decidable (autoMatches tok e) := by
  unfold autoMatches; infer_instance

/-- "A record whose `id` field equals the requested job id": a JSON object
whose `id` member is that integer. -/
def isRecordFor (v : JValue) (job_id : Int) : Bool :=
  match v with
  | JValue.obj fs =>
    (match objGet fs "id" with
     | some x => decide (x.asI64 = some job_id)
     | none => false)
  | _ => false

/-- The response contains a matching record: among the elements when the
body is an array, or the body itself when it is an object. -/
def containsRecord (v : JValue) (job_id : Int) : Bool :=
  match v with
  | JValue.arr items => items.any (fun it => isRecordFor it job_id)
  | _ => isRecordFor v job_id

/-- Insert the canonical `8-4-4-4-12` hyphens into a 32-character list. -/
def hyphenate (ds : List Char) : List Char :=
  ds.take 8 ++ '-' ::
    ((ds.drop 8).take 4 ++ '-' ::
      (((ds.drop 8).drop 4).take 4 ++ '-' ::
        ((((ds.drop 8).drop 4).drop 4).take 4 ++ '-' ::
          (((ds.drop 8).drop 4).drop 4).drop 4)))

/-! ## Helper lemmas -/

theorem dropWhile_all_false {p : Char → Bool} :
    ∀ {cs : List Char}, (∀ c ∈ cs, p c = false) → cs.dropWhile p = cs := by
  intro cs h
  cases cs with
  | nil => rfl
  | cons c r => simp [List.dropWhile, h c (List.mem_cons_self c r)]

theorem rustTrim_all_not_ws {cs : List Char}
    (h : ∀ c ∈ cs, isRustWs c = false) : rustTrim cs = cs := by
  unfold rustTrim
  rw [dropWhile_all_false h, dropWhile_all_false, List.reverse_reverse]
  intro c hc
  exact h c (List.mem_reverse.mp hc)

theorem trimMatchesChar_all_ne {m : Char} {cs : List Char}
    (h : ∀ c ∈ cs, (c == m) = false) : trimMatchesChar m cs = cs := by
  unfold trimMatchesChar
  rw [dropWhile_all_false h, dropWhile_all_false, List.reverse_reverse]
  intro c hc
  exact h c (List.mem_reverse.mp hc)

theorem findFirstEntry_none_iff (p : Entry → Bool) :
    ∀ ns : List Node,
      (findFirstEntry? ns p = none ↔ ∀ e ∈ entriesOf ns, p e = false) := by
  intro ns
  induction ns with
  | nil => simp [findFirstEntry?, entriesOf]
  | cons n rest ih =>
    cases n with
    | entry e =>
      by_cases hp : p e
      · simp [findFirstEntry?, entriesOf, hp]
      · simp only [Bool.not_eq_true] at hp
        simp [findFirstEntry?, entriesOf, hp, ih]
    | group => simp [findFirstEntry?, entriesOf, ih]

theorem entriesOf_cons_entry (e : Entry) (ns : List Node) :
    entriesOf (Node.entry e :: ns) = e :: entriesOf ns := rfl

theorem entriesOf_cons_group (ns : List Node) :
    entriesOf (Node.group :: ns) = entriesOf ns := rfl

theorem findFirstEntry_some (p : Entry → Bool) :
    ∀ (ns : List Node) (e : Entry), findFirstEntry? ns p = some e →
      p e = true ∧
        ∃ l1 l2, entriesOf ns = l1 ++ e :: l2 ∧ ∀ x ∈ l1, p x = false := by
  intro ns
  induction ns with
  | nil => intro e h; simp [findFirstEntry?] at h
  | cons n rest ih =>
    intro e h
    cases n with
    | entry e0 =>
      by_cases hp : p e0
      · simp [findFirstEntry?, hp] at h
        subst h
        exact ⟨hp, [], entriesOf rest, by simp [entriesOf], by simp⟩
      · simp only [Bool.not_eq_true] at hp
        simp [findFirstEntry?, hp] at h
        obtain ⟨he, l1, l2, heq, hall⟩ := ih e h
        refine ⟨he, e0 :: l1, l2, by rw [entriesOf_cons_entry, heq]; rfl, ?_⟩
        intro x hx
        rcases List.mem_cons.mp hx with hx | hx
        · subst hx; exact hp
        · exact hall x hx
    | group =>
      simp only [findFirstEntry?] at h
      obtain ⟨he, l1, l2, heq, hall⟩ := ih e h
      exact ⟨he, l1, l2, by rw [entriesOf_cons_group, heq], hall⟩

theorem findSome_isSome_any {α β : Type} (f : α → Option β) :
    ∀ l : List α, (l.findSome? f).isSome = l.any (fun x => (f x).isSome) := by
  intro l
  induction l with
  | nil => rfl
  | cons x r ih =>
    rw [List.findSome?_cons]
    cases hf : f x with
    | none => simp [hf, ih]
    | some b => simp [hf]

theorem jsonFromStr_empty : jsonFromStr "" = none := rfl

/-! ## Claim theorems -/

/-- C1: `wait_for_job` treats exactly the state strings "SUCCESS", "FAILED"
and "ABORTED" as terminal: "SUCCESS" returns the job; "FAILED"/"ABORTED"
fails with detail equal to the job's `error` field if present, else its
`exception` field if present, else the generic fallback "job failed"; any
other state (including an absent one) is non-terminal and the loop polls
the next snapshot. -/
theorem wait_for_job_terminal_classification (jobId : Int) (job : JobInfo)
    (rest : List JobInfo) :
    (job.state = some "SUCCESS" →
      wait_step jobId job = WaitStep.terminal job) ∧
    ((job.state = some "FAILED" ∨ job.state = some "ABORTED") →
      wait_step jobId job = WaitStep.failed
        ("job " ++ toString jobId ++ " failed: " ++
          rustTrimS
            (match job.error, job.exception with
             | some e, _ => e
             | none, some x => x
             | none, none => "job failed"))) ∧
    (∀ s, job.state = some s → s ≠ "SUCCESS" → s ≠ "FAILED" → s ≠ "ABORTED" →
      wait_step jobId job = WaitStep.pending ∧
        wait_run jobId (job :: rest) = wait_run jobId rest) ∧
    (job.state = none →
      wait_step jobId job = WaitStep.pending ∧
        wait_run jobId (job :: rest) = wait_run jobId rest) := by
  refine ⟨?_, ?_, ?_, ?_⟩
  · intro h
    simp [wait_step, h]
  · intro h
    rcases h with h | h <;>
      (simp only [wait_step, h]
       rw [if_neg (by decide), if_pos (by decide)]
       cases he : job.error <;> cases hx : job.exception <;> simp [he, hx])
  · intro s hs h1 h2 h3
    have hw : wait_step jobId job = WaitStep.pending := by
      simp only [wait_step, hs]
      rw [if_neg (by simpa using h1), if_neg (by rintro (h | h) <;> simp_all)]
    exact ⟨hw, by simp [wait_run, hw]⟩
  · intro h
    have hw : wait_step jobId job = WaitStep.pending := by
      simp [wait_step, h]
    exact ⟨hw, by simp [wait_run, hw]⟩

/-- C1 witness: the classification evaluated at concrete snapshots. -/
theorem wait_for_job_terminal_classification_checks :
    wait_step 1 { id := 1, state := some "SUCCESS" } =
      WaitStep.terminal { id := 1, state := some "SUCCESS" } ∧
    wait_step 2 { id := 2, state := some "FAILED", error := some "disk busy" } =
      WaitStep.failed "job 2 failed: disk busy" ∧
    wait_step 2 { id := 2, state := some "ABORTED" } =
      WaitStep.failed "job 2 failed: job failed" ∧
    wait_step 3 { id := 3, state := some "RUNNING" } = WaitStep.pending ∧
    wait_run 3 ({ id := 3, state := some "RUNNING" } ::
        [{ id := 3, state := some "SUCCESS" }]) =
      wait_run 3 [{ id := 3, state := some "SUCCESS" }] ∧
    wait_step 4 { id := 4 } = WaitStep.pending := by
  refine ⟨?_, ?_, ?_, ?_, ?_, ?_⟩
  · exact (wait_for_job_terminal_classification 1 _ []).1 rfl
  · exact (wait_for_job_terminal_classification 2 _ []).2.1 (Or.inl rfl)
  · exact (wait_for_job_terminal_classification 2 _ []).2.1 (Or.inr rfl)
  · exact ((wait_for_job_terminal_classification 3 _ []).2.2.1 "RUNNING" rfl
      (by decide) (by decide) (by decide)).1
  · exact ((wait_for_job_terminal_classification 3 _
      [{ id := 3, state := some "SUCCESS" }]).2.2.1 "RUNNING" rfl
      (by decide) (by decide) (by decide)).2
  · exact ((wait_for_job_terminal_classification 4 { id := 4 } []).2.2.2 rfl).1

/-- C4: the job-status query returns the POST result when the POST attempt
succeeds (the GET outcome is then irrelevant); the GET result is returned
when POST fails and GET succeeds; and when both fail the combined error
mentions both the POST failure and the GET failure. -/
theorem get_job_post_then_get (postRes getRes : Except String JobInfo) :
    (∀ j, postRes = Except.ok j → get_job postRes getRes = Except.ok j) ∧
    (∀ g1 g2 j, postRes = Except.ok j →
      get_job postRes g1 = get_job postRes g2) ∧
    (∀ pe j, postRes = Except.error pe → getRes = Except.ok j →
      get_job postRes getRes = Except.ok j) ∧
    (∀ pe ge, postRes = Except.error pe → getRes = Except.error ge →
      get_job postRes getRes = Except.error
        ("failed to query job status: post error: " ++ pe ++
          "; get error: " ++ ge) ∧
      ∃ s1 s2 s3,
        get_job postRes getRes = Except.error (s1 ++ pe ++ s2 ++ ge ++ s3)) := by
  refine ⟨?_, ?_, ?_, ?_⟩
  · intro j h; subst h; rfl
  · intro g1 g2 j h; subst h; rfl
  · intro pe j hp hg; subst hp; subst hg; rfl
  · intro pe ge hp hg
    subst hp; subst hg
    refine ⟨rfl, "failed to query job status: post error: ", "; get error: ", "", ?_⟩
    simp [get_job]

/-- C4 witness: the fallback evaluated at concrete outcomes. -/
theorem get_job_post_then_get_checks :
    get_job (Except.ok { id := 5 }) (Except.error "g") =
      Except.ok { id := 5 } ∧
    get_job (Except.error "p") (Except.ok { id := 5 }) =
      Except.ok { id := 5 } ∧
    get_job (Except.error "p") (Except.error "g") =
      Except.error "failed to query job status: post error: p; get error: g" := by
  refine ⟨?_, ?_, ?_⟩
  · exact (get_job_post_then_get (Except.ok { id := 5 })
      (Except.error "g")).1 _ rfl
  · exact (get_job_post_then_get (Except.error "p")
      (Except.ok { id := 5 })).2.2.1 "p" _ rfl rfl
  · exact ((get_job_post_then_get (Except.error "p")
      (Except.error "g")).2.2.2 "p" "g" rfl rfl).1

/-- C5: in the serialized per-dataset unlock object, exactly one of the
`passphrase`/`key` members is present, determined by the secret variant,
and the absent one is omitted entirely (in particular it never appears
with a null value). -/
theorem unlock_dataset_secret_exclusive (dataset : String)
    (secret : UnlockSecret) :
    ((∃ v, ("passphrase", v) ∈ unlockDatasetFields dataset secret) ↔
      ∃ p, secret = UnlockSecret.passphrase p) ∧
    ((∃ v, ("key", v) ∈ unlockDatasetFields dataset secret) ↔
      ∃ k, secret = UnlockSecret.key k) ∧
    (∀ v, ("passphrase", v) ∈ unlockDatasetFields dataset secret →
      ∃ p, secret = UnlockSecret.passphrase p ∧ v = JValue.str p) ∧
    (∀ v, ("key", v) ∈ unlockDatasetFields dataset secret →
      ∃ k, secret = UnlockSecret.key k ∧ v = JValue.str k) := by
  cases secret with
  | passphrase p =>
    refine ⟨?_, ?_, ?_, ?_⟩ <;>
      simp [unlockDatasetFields, unlockRequestDataset, unlockSecretFields,
        serializeUnlockDataset]
  | key k =>
    refine ⟨?_, ?_, ?_, ?_⟩ <;>
      simp [unlockDatasetFields, unlockRequestDataset, unlockSecretFields,
        serializeUnlockDataset]

/-- C5 witness: a passphrase-mode request carries `passphrase` and no
`key`; a key-mode request carries `key` and no `passphrase`. -/
theorem unlock_dataset_secret_exclusive_checks :
    (∃ v, ("passphrase", v) ∈
      unlockDatasetFields "tank" (UnlockSecret.passphrase "pw")) ∧
    (¬ ∃ v, ("key", v) ∈
      unlockDatasetFields "tank" (UnlockSecret.passphrase "pw")) ∧
    (∃ v, ("key", v) ∈ unlockDatasetFields "tank" (UnlockSecret.key "k0")) ∧
    (¬ ∃ v, ("passphrase", v) ∈
      unlockDatasetFields "tank" (UnlockSecret.key "k0")) := by
  refine ⟨?_, ?_, ?_, ?_⟩
  · exact (unlock_dataset_secret_exclusive "tank"
      (UnlockSecret.passphrase "pw")).1.mpr ⟨"pw", rfl⟩
  · intro h
    obtain ⟨k, hk⟩ := (unlock_dataset_secret_exclusive "tank"
      (UnlockSecret.passphrase "pw")).2.1.mp h
    exact UnlockSecret.noConfusion hk
  · exact (unlock_dataset_secret_exclusive "tank"
      (UnlockSecret.key "k0")).2.1.mpr ⟨"k0", rfl⟩
  · intro h
    obtain ⟨p, hp⟩ := (unlock_dataset_secret_exclusive "tank"
      (UnlockSecret.key "k0")).1.mp h
    exact UnlockSecret.noConfusion hp

/-- C9: `parse_unlock_response` and `parse_lock_response` always return
`Ok`; an unparseable non-empty body is coerced to a job id when its
trimmed text parses as an i64, to a locked flag (lock parser only) when
it parses as a bool, and otherwise becomes the verbatim trimmed text in
the `message` field. -/
theorem response_parsers_total :
    (∀ text, ∃ r, parse_unlock_response text = Except.ok r) ∧
    (∀ text, ∃ r, parse_lock_response text = Except.ok r) ∧
    (∀ text, jsonFromStr (rustTrimS text) = none → rustTrimS text ≠ "" →
      parse_unlock_response text = Except.ok
        (match parseI64 (rustTrimS text) with
         | some j => { job_id := some j }
         | none => { message := some (rustTrimS text) }) ∧
      parse_lock_response text = Except.ok
        (match parseI64 (rustTrimS text) with
         | some j => { job_id := some j }
         | none =>
           match parseBoolRust (rustTrimS text) with
           | some b => { locked := b }
           | none => { message := some (rustTrimS text) })) := by
  refine ⟨?_, ?_, ?_⟩
  · intro text
    unfold parse_unlock_response
    by_cases h : rustTrimS text = ""
    · rw [if_pos h]; exact ⟨_, rfl⟩
    · rw [if_neg h]; exact ⟨_, rfl⟩
  · intro text
    unfold parse_lock_response
    by_cases h : rustTrimS text = ""
    · rw [if_pos h]; exact ⟨_, rfl⟩
    · rw [if_neg h]; exact ⟨_, rfl⟩
  · intro text hjson hne
    constructor
    · unfold parse_unlock_response
      rw [if_neg hne, hjson]
    · unfold parse_lock_response
      rw [if_neg hne, hjson]

/-- C9 witness: `"+17"` is invalid JSON but parses as an i64; `"hello"` is
coerced verbatim into the message. -/
theorem response_parsers_total_checks :
    parse_unlock_response " +17 " = Except.ok { job_id := some 17 } ∧
    parse_lock_response " +17 " = Except.ok { job_id := some 17 } ∧
    parse_unlock_response "hello" = Except.ok { message := some "hello" } ∧
    parse_lock_response "hello" = Except.ok { message := some "hello" } := by
  refine ⟨?_, ?_, ?_, ?_⟩
  · exact (response_parsers_total.2.2 " +17 " rfl (by decide)).1
  · exact (response_parsers_total.2.2 " +17 " rfl (by decide)).2
  · exact (response_parsers_total.2.2 "hello" rfl (by decide)).1
  · exact (response_parsers_total.2.2 "hello" rfl (by decide)).2

/-- C6: a body parsing as a bare JSON number with an integer value, or as
a JSON string whose trimmed content parses as an i64, yields that integer
as the job id in both the unlock and the lock parser; a body parsing as a
bare JSON boolean yields that boolean as the lock parser's locked flag. -/
theorem parse_numeric_bodies_yield_job_id :
    (∀ body n i, jsonFromStr (rustTrimS body) = some (JValue.num n) →
      n.asI64 = some i →
      parse_unlock_response body = Except.ok { job_id := some i } ∧
      parse_lock_response body = Except.ok { job_id := some i }) ∧
    (∀ body s i, jsonFromStr (rustTrimS body) = some (JValue.str s) →
      parseI64 (rustTrimS s) = some i →
      parse_unlock_response body = Except.ok { job_id := some i } ∧
      parse_lock_response body = Except.ok { job_id := some i }) ∧
    (∀ body b, jsonFromStr (rustTrimS body) = some (JValue.bool b) →
      parse_lock_response body = Except.ok { locked := b }) := by
  have hne : ∀ body : String, ∀ v : JValue,
      jsonFromStr (rustTrimS body) = some v → rustTrimS body ≠ "" := by
    intro body v h heq
    rw [heq, jsonFromStr_empty] at h
    exact Option.noConfusion h
  refine ⟨?_, ?_, ?_⟩
  · intro body n i hjson hi
    constructor
    · unfold parse_unlock_response
      rw [if_neg (hne body _ hjson), hjson]
      dsimp only
      rw [hi]
    · unfold parse_lock_response
      rw [if_neg (hne body _ hjson), hjson]
      dsimp only
      rw [hi]
  · intro body s i hjson hi
    constructor
    · unfold parse_unlock_response
      rw [if_neg (hne body _ hjson), hjson]
      dsimp only
      rw [hi]
    · unfold parse_lock_response
      rw [if_neg (hne body _ hjson), hjson]
      dsimp only
      rw [hi]
  · intro body b hjson
    unfold parse_lock_response
    rw [if_neg (hne body _ hjson), hjson]

/-- C6 witness: body "17" yields job id 17 in both parsers; a quoted
"17" body does too; body true yields locked = true. -/
theorem parse_numeric_bodies_yield_job_id_checks :
    parse_unlock_response "17" = Except.ok { job_id := some 17 } ∧
    parse_lock_response "17" = Except.ok { job_id := some 17 } ∧
    parse_unlock_response " \"17\" " = Except.ok { job_id := some 17 } ∧
    parse_lock_response " \"17\" " = Except.ok { job_id := some 17 } ∧
    parse_lock_response "true" = Except.ok { locked := true } := by
  refine ⟨?_, ?_, ?_, ?_, ?_⟩
  · exact (parse_numeric_bodies_yield_job_id.1 "17" ⟨some 17, "17"⟩ 17 rfl rfl).1
  · exact (parse_numeric_bodies_yield_job_id.1 "17" ⟨some 17, "17"⟩ 17 rfl rfl).2
  · exact (parse_numeric_bodies_yield_job_id.2.1 " \"17\" " "17" 17 rfl rfl).1
  · exact (parse_numeric_bodies_yield_job_id.2.1 " \"17\" " "17" 17 rfl rfl).2
  · exact parse_numeric_bodies_yield_job_id.2.2 "true" true rfl

theorem filter_pji_isSome (jobId : Int) (v : JValue) :
    (Option.filter (fun j => decide (j.id = jobId)) (parse_job_info v)).isSome =
      isRecordFor v jobId := by
  cases v with
  | obj fs =>
    simp only [parse_job_info, JValue.asObj, isRecordFor]
    cases hid : objGet fs "id" with
    | none => rfl
    | some idv =>
      cases ha : idv.asI64 with
      | none => simp [ha, Option.filter]
      | some k =>
        by_cases hk : k = jobId <;> simp [ha, Option.filter, hk]
  | null => rfl
  | bool b => rfl
  | num n => rfl
  | str s => rfl
  | arr items => rfl

theorem extract_job_isSome (v : JValue) (jobId : Int) :
    (extract_job v jobId).isSome = containsRecord v jobId := by
  cases v with
  | arr items =>
    simp only [extract_job, containsRecord]
    rw [findSome_isSome_any]
    congr 1
    funext it
    exact filter_pji_isSome jobId it
  | obj fs => exact filter_pji_isSome jobId (JValue.obj fs)
  | null => rfl
  | bool b => rfl
  | num n => rfl
  | str s => rfl

/-- C8: for a parseable job-status body, the query succeeds exactly when
the response contains a record whose `id` field equals the requested job
id (searching the elements when the body is an array, the body itself
when it is an object); when it parses but no such record exists the
result is the distinct job-not-found error. -/
theorem job_response_requires_matching_record (text : String) (jobId : Int)
    (v : JValue) (h : jsonFromStr (rustTrimS text) = some v) :
    ((∃ j, parse_job_response text jobId = Except.ok j) ↔
      containsRecord v jobId = true) ∧
    (containsRecord v jobId = false →
      parse_job_response text jobId =
        Except.error (JobQueryError.notFound jobId)) := by
  have hx := extract_job_isSome v jobId
  simp only [parse_job_response]
  rw [h]
  dsimp only
  cases he : extract_job v jobId with
  | none =>
    rw [he] at hx
    simp only [Option.isSome_none] at hx
    dsimp only
    constructor
    · constructor
      · rintro ⟨j, hj⟩
        exact Except.noConfusion hj
      · intro hc
        rw [hc] at hx
        exact Bool.noConfusion hx
    · intro _
      rfl
  | some j =>
    rw [he] at hx
    simp only [Option.isSome_some] at hx
    dsimp only
    constructor
    · constructor
      · intro _
        exact hx.symm
      · intro _
        exact ⟨j, rfl⟩
    · intro hc
      rw [hc] at hx
      exact Bool.noConfusion hx

/-- C8 witness: a response containing the record for id 7 succeeds for
job 7; a parseable response without the requested id yields the
job-not-found error. -/
theorem job_response_requires_matching_record_checks :
    (∃ j, parse_job_response "[\x7b\"id\": 7\x7d]" 7 = Except.ok j) ∧
    parse_job_response "[\x7b\"id\": 8\x7d]" 9 =
      Except.error (JobQueryError.notFound 9) := by
  constructor
  · exact (job_response_requires_matching_record "[\x7b\"id\": 7\x7d]" 7
      (JValue.arr [JValue.obj [("id", JValue.num ⟨some 7, "7"⟩)]]) rfl).1.mpr rfl
  · exact (job_response_requires_matching_record "[\x7b\"id\": 8\x7d]" 9
      (JValue.arr [JValue.obj [("id", JValue.num ⟨some 8, "8"⟩)]]) rfl).2 rfl

/-- C2 counterexample: the fallback custom-field lookup is exact
(case-sensitive), not case-insensitive as claimed: on an entry whose only
custom field is keyed "Server", looking up "server" finds nothing, while
the claimed case-insensitive lookup would find it. -/
theorem entry_field_custom_lookup_case_sensitive_cex :
    ¬ (entry_field ⟨0, [("Server", "v1")]⟩ "server" =
        entry_field_ci_spec ⟨0, [("Server", "v1")]⟩ "server") := by
  decide

/-- C2 (amended): field lookup trims the name and lowercases it for alias
matching ({username, user_name, user-name, user} → username field;
{password, pass} → password; title and url → those direct fields), and
for any other name performs the custom-field lookup by exact
(case-sensitive) trimmed name; "  USERNAME " resolves like "username"
for every entry. -/
theorem entry_field_alias_resolution (e : Entry) (field : String) :
    (asciiLowerS (rustTrimS field) = "title" →
      entry_field e field = e.get_title) ∧
    ((asciiLowerS (rustTrimS field) = "username" ∨
      asciiLowerS (rustTrimS field) = "user_name" ∨
      asciiLowerS (rustTrimS field) = "user-name" ∨
      asciiLowerS (rustTrimS field) = "user") →
      entry_field e field = e.get_username) ∧
    ((asciiLowerS (rustTrimS field) = "password" ∨
      asciiLowerS (rustTrimS field) = "pass") →
      entry_field e field = e.get_password) ∧
    (asciiLowerS (rustTrimS field) = "url" →
      entry_field e field = e.get_url) ∧
    (asciiLowerS (rustTrimS field) ∉
      (["title", "username", "user_name", "user-name", "user",
        "password", "pass", "url"] : List String) →
      entry_field e field = e.get (rustTrimS field)) ∧
    entry_field e "  USERNAME " = entry_field e "username" := by
  refine ⟨?_, ?_, ?_, ?_, ?_, rfl⟩
  · intro h
    simp only [entry_field]
    rw [h]
    rfl
  · rintro (h | h | h | h) <;> (simp only [entry_field]; rw [h]; rfl)
  · rintro (h | h) <;> (simp only [entry_field]; rw [h]; rfl)
  · intro h
    simp only [entry_field]
    rw [h]
    rfl
  · intro h
    simp only [entry_field]
    split
    all_goals first
      | rfl
      | (rename_i heq; exact absurd (by rw [heq]; decide) h)

/-- C2 witness: aliases and the exact custom lookup at concrete inputs. -/
theorem entry_field_alias_resolution_checks :
    entry_field ⟨0, [("UserName", "bob"), ("Server", "v1")]⟩ "  USERNAME " =
      entry_field ⟨0, [("UserName", "bob"), ("Server", "v1")]⟩ "username" ∧
    entry_field ⟨0, [("UserName", "bob"), ("Server", "v1")]⟩ "User-Name" =
      some "bob" ∧
    entry_field ⟨0, [("UserName", "bob"), ("Server", "v1")]⟩ " Server " =
      some "v1" := by
  refine ⟨?_, ?_, ?_⟩
  · exact (entry_field_alias_resolution
      ⟨0, [("UserName", "bob"), ("Server", "v1")]⟩ "x").2.2.2.2.2
  · have h := (entry_field_alias_resolution
      ⟨0, [("UserName", "bob"), ("Server", "v1")]⟩ "User-Name").2.1
      (Or.inr (Or.inr (Or.inl rfl)))
    rw [h]
    rfl
  · have h := (entry_field_alias_resolution
      ⟨0, [("UserName", "bob"), ("Server", "v1")]⟩ " Server ").2.2.2.2.1
      (by decide)
    rw [h]
    rfl

theorem bool_false_iff_not {b : Bool} {P : Prop} (h : b = true ↔ P) :
    b = false ↔ ¬ P := by
  cases b <;> simp_all

/-- C3: with no recognized prefix (Auto mode), `find_entry` scans the
store's entries in order and returns the first entry whose UUID equals
the token's parsed UUID (when it parses) or whose title equals the token
exactly; it returns none exactly when no entry satisfies either test. -/
theorem find_entry_auto_first_match (store : KeePassStore) (sel : String)
    (hmode : (parse_selector (rustTrimS sel)).1 = SelectorMode.auto) :
    (find_entry store sel = none ↔
      ∀ e ∈ entriesOf store.root,
        ¬ autoMatches (parse_selector (rustTrimS sel)).2 e) ∧
    (∀ e, find_entry store sel = some e →
      ∃ l1 l2, entriesOf store.root = l1 ++ e :: l2 ∧
        autoMatches (parse_selector (rustTrimS sel)).2 e ∧
        ∀ x ∈ l1, ¬ autoMatches (parse_selector (rustTrimS sel)).2 x) := by
  rcases hps : parse_selector (rustTrimS sel) with ⟨m, t⟩
  rw [hps] at hmode
  dsimp only at hmode
  subst hmode
  dsimp only
  have hfe : find_entry store sel = findFirstEntry? store.root
      (fun e =>
        (match parse_uuid t with
         | some u => decide (e.uuid = u)
         | none => false) || decide (e.get_title = some t)) := by
    simp only [find_entry]
    rw [hps]
  rw [hfe]
  have hpred : ∀ e : Entry,
      ((match parse_uuid t with
        | some u => decide (e.uuid = u)
        | none => false) || decide (e.get_title = some t)) = true ↔
        autoMatches t e := by
    intro e
    cases hu : parse_uuid t with
    | none => simp [autoMatches, hu]
    | some u => simp [autoMatches, hu]
  constructor
  · rw [findFirstEntry_none_iff]
    exact forall_congr' (fun e =>
      imp_congr_right (fun _ => bool_false_iff_not (hpred e)))
  · intro e hfind
    obtain ⟨hp, l1, l2, heq, hall⟩ := findFirstEntry_some _ _ _ hfind
    exact ⟨l1, l2, heq, (hpred e).mp hp,
      fun x hx => (bool_false_iff_not (hpred x)).mp (hall x hx)⟩

/-- C3 witness: in a store with entries alpha then beta, the unprefixed
selector "beta" finds the beta entry (first match, with no earlier match),
and a selector matching nothing yields none. -/
theorem find_entry_auto_first_match_checks :
    (∃ l1 l2,
      entriesOf (KeePassStore.mk [Node.entry ⟨1, [("Title", "alpha")]⟩,
        Node.group, Node.entry ⟨2, [("Title", "beta")]⟩]).root =
          l1 ++ (⟨2, [("Title", "beta")]⟩ : Entry) :: l2 ∧
        autoMatches
          (parse_selector (rustTrimS "beta")).2 ⟨2, [("Title", "beta")]⟩ ∧
        ∀ x ∈ l1,
          ¬ autoMatches (parse_selector (rustTrimS "beta")).2 x) ∧
    find_entry (KeePassStore.mk [Node.entry ⟨1, [("Title", "alpha")]⟩,
      Node.group, Node.entry ⟨2, [("Title", "beta")]⟩]) "gamma" = none := by
  constructor
  · exact (find_entry_auto_first_match
      (KeePassStore.mk [Node.entry ⟨1, [("Title", "alpha")]⟩, Node.group,
        Node.entry ⟨2, [("Title", "beta")]⟩]) "beta" rfl).2
      ⟨2, [("Title", "beta")]⟩ rfl
  · exact (find_entry_auto_first_match
      (KeePassStore.mk [Node.entry ⟨1, [("Title", "alpha")]⟩, Node.group,
        Node.entry ⟨2, [("Title", "beta")]⟩]) "gamma" rfl).1.mpr (by decide)

theorem utf8Len_asciiLowerChar (c : Char) :
    utf8Len (asciiLowerChar c) = utf8Len c := by
  unfold asciiLowerChar
  by_cases h : 65 ≤ c.toNat ∧ c.toNat ≤ 90
  · rw [if_pos h]
    have hv : (c.toNat + 32).isValidChar := Or.inl (by omega)
    have ht : (Char.ofNat (c.toNat + 32)).toNat = c.toNat + 32 := by
      unfold Char.ofNat
      rw [dif_pos hv]
      rfl
    unfold utf8Len
    rw [ht, if_pos (by omega), if_pos (by omega)]
  · rw [if_neg h]

theorem utf8Length_map_lower :
    ∀ cs : List Char, utf8Length (cs.map asciiLowerChar) = utf8Length cs := by
  intro cs
  induction cs with
  | nil => rfl
  | cons c r ih =>
    show utf8Len (asciiLowerChar c) + utf8Length (r.map asciiLowerChar) =
      utf8Len c + utf8Length r
    rw [utf8Len_asciiLowerChar, ih]

theorem utf8Length_append :
    ∀ a b : List Char, utf8Length (a ++ b) = utf8Length a + utf8Length b := by
  intro a b
  induction a with
  | nil => simp [utf8Length]
  | cons c r ih =>
    show utf8Len c + utf8Length (r ++ b) = utf8Len c + utf8Length r + utf8Length b
    rw [ih]
    omega

theorem utf8Len_pos (c : Char) : 1 ≤ utf8Len c := by
  unfold utf8Len
  split_ifs <;> omega

theorem byteSlice_append :
    ∀ p r : List Char, byteSlice (p ++ r) (utf8Length p) = some r := by
  intro p
  induction p with
  | nil =>
    intro r
    rw [List.nil_append]
    cases r <;> rfl
  | cons c p' ih =>
    intro r
    have h1 : 1 ≤ utf8Len c := utf8Len_pos c
    have hrec : utf8Length (c :: p') = utf8Len c + utf8Length p' := rfl
    obtain ⟨m, hm⟩ : ∃ m, utf8Length (c :: p') = m + 1 :=
      ⟨utf8Len c + utf8Length p' - 1, by omega⟩
    show byteSlice (c :: (p' ++ r)) (utf8Length (c :: p')) = some r
    rw [hm]
    simp only [byteSlice]
    rw [if_pos (by omega)]
    have hsub : m + 1 - utf8Len c = utf8Length p' := by omega
    rw [hsub]
    exact ih r

theorem byteSlice_take (n : Nat) (l : List Char) :
    byteSlice l (utf8Length (l.take n)) = some (l.drop n) := by
  have h := byteSlice_append (l.take n) (l.drop n)
  rw [List.take_append_drop] at h
  exact h

/-- C10: `parse_selector` is total: the byte index used to recover the
original-case token is always on a character boundary (ASCII lowercasing
preserves each character's UTF-8 byte length), and the returned token is
the trimmed character-suffix of the original input with case preserved
(or the input itself in Auto mode). -/
theorem parse_selector_slice_safe (input : String) :
    parse_selector_bytes input = some (parse_selector input) ∧
    ((parse_selector input).2 = input ∨
     (parse_selector input).2 = rustTrimS (String.mk (input.data.drop 5)) ∨
     (parse_selector input).2 = rustTrimS (String.mk (input.data.drop 6))) := by
  have hidx : ∀ n : Nat,
      utf8Length input.data -
        utf8Length ((input.data.map asciiLowerChar).drop n) =
      utf8Length (input.data.take n) := by
    intro n
    have heq : utf8Length input.data =
        utf8Length (input.data.take n) + utf8Length (input.data.drop n) := by
      conv_lhs => rw [← List.take_append_drop n input.data]
      exact utf8Length_append _ _
    rw [← List.map_drop, utf8Length_map_lower]
    omega
  constructor
  · unfold parse_selector parse_selector_bytes
    by_cases h5 : (input.data.map asciiLowerChar).take 5 = "uuid:".data
    · rw [if_pos h5, if_pos h5, hidx 5, byteSlice_take]
      rfl
    · rw [if_neg h5, if_neg h5]
      by_cases h6 : (input.data.map asciiLowerChar).take 6 = "title:".data
      · rw [if_pos h6, if_pos h6, hidx 6, byteSlice_take]
        rfl
      · rw [if_neg h6, if_neg h6]
  · unfold parse_selector
    by_cases h5 : (input.data.map asciiLowerChar).take 5 = "uuid:".data
    · rw [if_pos h5]
      exact Or.inr (Or.inl rfl)
    · rw [if_neg h5]
      by_cases h6 : (input.data.map asciiLowerChar).take 6 = "title:".data
      · rw [if_pos h6]
        exact Or.inr (Or.inr rfl)
      · rw [if_neg h6]
        exact Or.inl rfl

theorem hexDigit_ranges {c : Char} (h : isHexDigitC c = true) :
    (48 ≤ c.toNat ∧ c.toNat ≤ 57) ∨ (97 ≤ c.toNat ∧ c.toNat ≤ 102) ∨
      (65 ≤ c.toNat ∧ c.toNat ≤ 70) := by
  simpa [isHexDigitC] using h

theorem hex_toNat_bounds {c : Char} (h : isHexDigitC c = true) :
    48 ≤ c.toNat ∧ c.toNat ≤ 102 := by
  have hr := hexDigit_ranges h
  omega

theorem hex_not_ws {c : Char} (h : isHexDigitC c = true) :
    isRustWs c = false := by
  have hr := hexDigit_ranges h
  simp only [isRustWs, decide_eq_false_iff_not]
  omega

theorem hex_ne {c : Char} (h : isHexDigitC c = true) {m : Char}
    (hm : m.toNat < 48 ∨ 102 < m.toNat) : c ≠ m := by
  intro he
  subst he
  have := hex_toNat_bounds h
  omega

theorem parseHexAcc_all_hex :
    ∀ (cs : List Char) (acc : Nat), (∀ c ∈ cs, isHexDigitC c = true) →
      parseHexAcc cs acc =
        some (cs.foldl (fun a c => a * 16 + hexValC c) acc) := by
  intro cs
  induction cs with
  | nil => intro acc _; rfl
  | cons c r ih =>
    intro acc h
    have hc := h c (List.mem_cons_self c r)
    simp only [parseHexAcc, hc, if_true, List.foldl_cons]
    exact ih _ (fun x hx => h x (List.mem_cons_of_mem c hx))

theorem splitOnDash_no_dash :
    ∀ {xs : List Char}, (∀ c ∈ xs, c.toNat ≠ 45) → splitOnDash xs = [xs] := by
  intro xs h
  induction xs with
  | nil => rfl
  | cons c r ih =>
    have hc := h c (List.mem_cons_self c r)
    have hr := ih (fun x hx => h x (List.mem_cons_of_mem c hx))
    simp only [splitOnDash, hc, if_false, hr]

theorem splitOnDash_append {ys : List Char} :
    ∀ {xs : List Char}, (∀ c ∈ xs, c.toNat ≠ 45) →
      splitOnDash (xs ++ '-' :: ys) = xs :: splitOnDash ys := by
  intro xs
  induction xs with
  | nil =>
    intro _
    simp only [List.nil_append, splitOnDash]
    rfl
  | cons c r ih =>
    intro h
    have hc := h c (List.mem_cons_self c r)
    have hr := ih (fun x hx => h x (List.mem_cons_of_mem c hx))
    simp only [List.cons_append, splitOnDash, hc, if_false]
    rw [show r.append ('-' :: ys) = r ++ '-' :: ys from rfl, hr]

/-- Trimming and brace-stripping leave a list of hex digits and hyphens
unchanged. -/
theorem trimAll_id_of_hexdash {cs : List Char}
    (h : ∀ c ∈ cs, isHexDigitC c = true ∨ c = '-') :
    trimMatchesChar '}' (trimMatchesChar '{' (rustTrim cs)) = cs := by
  have hws : ∀ c ∈ cs, isRustWs c = false := by
    intro c hc
    rcases h c hc with hh | hd
    · exact hex_not_ws hh
    · subst hd; rfl
  have hbr : ∀ (m : Char), 102 < m.toNat →
      ∀ c ∈ cs, (c == m) = false := by
    intro m hm c hc
    rcases h c hc with hh | hd
    · exact beq_false_of_ne (hex_ne hh (Or.inr hm))
    · subst hd
      apply beq_false_of_ne
      intro he
      subst he
      have h45 : ('-').toNat = 45 := rfl
      omega
  rw [rustTrim_all_not_ws hws,
    trimMatchesChar_all_ne (hbr '{' (by decide)),
    trimMatchesChar_all_ne (hbr '}' (by decide))]

theorem dropWhile_beq_cons_self {m : Char} {l : List Char} :
    List.dropWhile (fun c => c == m) (m :: l) =
      List.dropWhile (fun c => c == m) l := by
  simp [List.dropWhile_cons]

theorem dropWhile_beq_cons_ne {m c : Char} {l : List Char}
    (h : (c == m) = false) :
    List.dropWhile (fun x => x == m) (c :: l) = c :: l := by
  simp [List.dropWhile_cons, h]

theorem reverse_eq_cons_getLast {l : List Char} {cl : Char}
    (hl : l.getLast? = some cl) : ∃ T, l.reverse = cl :: T := by
  have hh : l.reverse.head? = some cl := by
    rw [List.head?_reverse]
    exact hl
  cases hr : l.reverse with
  | nil =>
    rw [hr] at hh
    exact Option.noConfusion hh
  | cons a T =>
    rw [hr] at hh
    simp only [List.head?_cons, Option.some.injEq] at hh
    exact ⟨T, by rw [hh]⟩

theorem trimMatchesChar_cons_keep {m c0 cl : Char} {xs : List Char}
    (h0 : (c0 == m) = false)
    (hl : (c0 :: xs).getLast? = some cl) (hlm : (cl == m) = false) :
    trimMatchesChar m (c0 :: xs) = c0 :: xs := by
  unfold trimMatchesChar
  rw [dropWhile_beq_cons_ne h0]
  obtain ⟨T, hT⟩ := reverse_eq_cons_getLast hl
  rw [hT, dropWhile_beq_cons_ne hlm, ← hT, List.reverse_reverse]

theorem trimMatchesChar_strip_head {m : Char} {Y : List Char} {c0 cl : Char}
    (hh : Y.head? = some c0) (h0 : (c0 == m) = false)
    (hl : Y.getLast? = some cl) (hlm : (cl == m) = false) :
    trimMatchesChar m (m :: Y) = Y := by
  cases Y with
  | nil => exact Option.noConfusion hh
  | cons y ys =>
    simp only [List.head?_cons, Option.some.injEq] at hh
    subst hh
    unfold trimMatchesChar
    rw [dropWhile_beq_cons_self, dropWhile_beq_cons_ne h0]
    obtain ⟨T, hT⟩ := reverse_eq_cons_getLast hl
    rw [hT, dropWhile_beq_cons_ne hlm, ← hT, List.reverse_reverse]

theorem trimMatchesChar_strip_last {m : Char} {X : List Char} {c0 cl : Char}
    (hh : X.head? = some c0) (h0 : (c0 == m) = false)
    (hl : X.getLast? = some cl) (hlm : (cl == m) = false) :
    trimMatchesChar m (X ++ [m]) = X := by
  cases X with
  | nil => exact Option.noConfusion hh
  | cons x xs =>
    simp only [List.head?_cons, Option.some.injEq] at hh
    subst hh
    unfold trimMatchesChar
    rw [List.cons_append, dropWhile_beq_cons_ne h0, ← List.cons_append]
    rw [show ((x :: xs) ++ [m]).reverse = m :: (x :: xs).reverse from by
      rw [List.reverse_append]; rfl]
    rw [dropWhile_beq_cons_self]
    obtain ⟨T, hT⟩ := reverse_eq_cons_getLast hl
    rw [hT, dropWhile_beq_cons_ne hlm, ← hT, List.reverse_reverse]

theorem getLast?_append_cons {a : List Char} {c : Char} {b : List Char}
    (hb : b ≠ []) : (a ++ c :: b).getLast? = b.getLast? := by
  rw [List.getLast?_append_of_ne_nil _ (by simp),
    show c :: b = [c] ++ b from rfl, List.getLast?_append_of_ne_nil _ hb]

theorem exists_getLast_mem {l : List Char} (h : l ≠ []) :
    ∃ cl, l.getLast? = some cl ∧ cl ∈ l := by
  cases hg : l.getLast? with
  | none => exact absurd (List.getLast?_eq_none_iff.mp hg) h
  | some a => exact ⟨a, rfl, List.mem_of_mem_getLast? hg⟩

theorem uuidParseStr_hex32 {ds : List Char} (h32 : ds.length = 32)
    (hhex : ∀ c ∈ ds, isHexDigitC c = true) :
    uuidParseStr ds = some (hexValue ds) := by
  unfold uuidParseStr
  rw [if_pos h32]
  exact parseHexAcc_all_hex ds 0 hhex

/-- `parse_uuid` reduces to `Uuid::parse_str` on inputs of hex digits and
hyphens (no whitespace, no braces to strip). -/
theorem parse_uuid_of_clean {X : List Char}
    (hmem : ∀ c ∈ X, isHexDigitC c = true ∨ c = '-') {u : Nat}
    (huuid : uuidParseStr X = some u) :
    parse_uuid (String.mk X) = some u := by
  have htrim := trimAll_id_of_hexdash hmem
  simp only [parse_uuid]
  rw [htrim, huuid]

theorem hyphenate_mem {ds : List Char} :
    ∀ c ∈ hyphenate ds, c ∈ ds ∨ c = '-' := by
  intro c hc
  simp only [hyphenate, List.mem_append, List.mem_cons] at hc
  rcases hc with h | h | h | h | h | h | h | h | h
  · exact Or.inl (List.mem_of_mem_take h)
  · exact Or.inr h
  · exact Or.inl (List.mem_of_mem_drop (List.mem_of_mem_take h))
  · exact Or.inr h
  · exact Or.inl
      (List.mem_of_mem_drop (List.mem_of_mem_drop (List.mem_of_mem_take h)))
  · exact Or.inr h
  · exact Or.inl (List.mem_of_mem_drop
      (List.mem_of_mem_drop (List.mem_of_mem_drop (List.mem_of_mem_take h))))
  · exact Or.inr h
  · exact Or.inl (List.mem_of_mem_drop
      (List.mem_of_mem_drop (List.mem_of_mem_drop (List.mem_of_mem_drop h))))

theorem hyphenate_length {ds : List Char} (h32 : ds.length = 32) :
    (hyphenate ds).length = 36 := by
  simp only [hyphenate, List.length_append, List.length_cons,
    List.length_take, List.length_drop, h32]
  omega

theorem uuidFromHyphenated_hyphenate {ds : List Char} (h32 : ds.length = 32)
    (hhex : ∀ c ∈ ds, isHexDigitC c = true) :
    uuidFromHyphenated (hyphenate ds) = some (hexValue ds) := by
  have hnd : ∀ (l : List Char), (∀ c ∈ l, c ∈ ds) →
      ∀ c ∈ l, c.toNat ≠ 45 := by
    intro l hsub c hc
    have hb := hex_toNat_bounds (hhex c (hsub c hc))
    omega
  have ha := hnd (ds.take 8) (fun c hc => List.mem_of_mem_take hc)
  have hb := hnd ((ds.drop 8).take 4)
    (fun c hc => List.mem_of_mem_drop (List.mem_of_mem_take hc))
  have hcc := hnd (((ds.drop 8).drop 4).take 4)
    (fun c hc =>
      List.mem_of_mem_drop (List.mem_of_mem_drop (List.mem_of_mem_take hc)))
  have hdd := hnd ((((ds.drop 8).drop 4).drop 4).take 4)
    (fun c hc => List.mem_of_mem_drop
      (List.mem_of_mem_drop (List.mem_of_mem_drop (List.mem_of_mem_take hc))))
  have hee := hnd ((((ds.drop 8).drop 4).drop 4).drop 4)
    (fun c hc => List.mem_of_mem_drop
      (List.mem_of_mem_drop (List.mem_of_mem_drop (List.mem_of_mem_drop hc))))
  unfold uuidFromHyphenated hyphenate
  rw [splitOnDash_append ha, splitOnDash_append hb, splitOnDash_append hcc,
    splitOnDash_append hdd, splitOnDash_no_dash hee]
  dsimp only
  rw [if_pos (by
    refine ⟨?_, ?_, ?_, ?_, ?_⟩ <;>
      (simp only [List.length_take, List.length_drop, h32]; try omega))]
  have hjoin : ds.take 8 ++ ((ds.drop 8).take 4 ++
      (((ds.drop 8).drop 4).take 4 ++ ((((ds.drop 8).drop 4).drop 4).take 4 ++
        (((ds.drop 8).drop 4).drop 4).drop 4))) = ds := by
    simp only [List.take_append_drop]
  rw [show ds.take 8 ++ (ds.drop 8).take 4 ++ ((ds.drop 8).drop 4).take 4 ++
      (((ds.drop 8).drop 4).drop 4).take 4 ++
      (((ds.drop 8).drop 4).drop 4).drop 4 =
        ds.take 8 ++ ((ds.drop 8).take 4 ++ (((ds.drop 8).drop 4).take 4 ++
          ((((ds.drop 8).drop 4).drop 4).take 4 ++
            (((ds.drop 8).drop 4).drop 4).drop 4))) from by
        simp [List.append_assoc]]
  rw [hjoin]
  exact parseHexAcc_all_hex ds 0 hhex

theorem uuidParseStr_hyphenate {ds : List Char} (h32 : ds.length = 32)
    (hhex : ∀ c ∈ ds, isHexDigitC c = true) :
    uuidParseStr (hyphenate ds) = some (hexValue ds) := by
  obtain ⟨d0, dt, hds⟩ : ∃ d0 dt, ds = d0 :: dt := by
    cases ds with
    | nil => simp at h32
    | cons a l => exact ⟨a, l, rfl⟩
  have hd0 : isHexDigitC d0 = true := hhex d0 (by rw [hds]; exact List.mem_cons_self _ _)
  have hd0b := hex_toNat_bounds hd0
  obtain ⟨Z, hZ⟩ : ∃ Z, hyphenate ds = d0 :: Z := by
    subst hds
    exact ⟨_, rfl⟩
  have hlen := hyphenate_length h32
  have hnotbrace : ¬ (hyphenate ds).head? = some '{' := by
    rw [hZ]
    simp only [List.head?_cons, Option.some.injEq]
    intro hcontra
    subst hcontra
    have h123 : ('{').toNat = 123 := rfl
    omega
  have hnoturn : ¬ (hyphenate ds).take 9 = "urn:uuid:".data := by
    rw [hZ]
    intro hcontra
    rw [show (d0 :: Z).take 9 = d0 :: Z.take 8 from rfl,
      show "urn:uuid:".data = 'u' :: "rn:uuid:".data from rfl] at hcontra
    have hd0u : d0 = 'u' := (List.cons.injEq _ _ _ _).mp hcontra |>.1
    subst hd0u
    have h117 : ('u').toNat = 117 := rfl
    omega
  unfold uuidParseStr
  rw [if_neg (by rw [hlen]; decide), if_neg hnotbrace, if_neg hnoturn]
  exact uuidFromHyphenated_hyphenate h32 hhex

/-- `parse_uuid` on a brace-wrapped clean form: the braces are stripped
and the inner form is parsed. -/
theorem parse_uuid_of_braced {X : List Char} {c0 cl : Char}
    (hh : X.head? = some c0) (hhex0 : isHexDigitC c0 = true)
    (hl : X.getLast? = some cl) (hhexl : isHexDigitC cl = true)
    (hmem : ∀ c ∈ X, isHexDigitC c = true ∨ c = '-') {u : Nat}
    (huuid : uuidParseStr X = some u) :
    parse_uuid (String.mk ('{' :: (X ++ ['}']))) = some u := by
  have hws : ∀ c ∈ '{' :: (X ++ ['}']), isRustWs c = false := by
    intro c hc
    rcases List.mem_cons.mp hc with rfl | hc2
    · rfl
    · rcases List.mem_append.mp hc2 with hc3 | hc3
      · rcases hmem c hc3 with hhx | rfl
        · exact hex_not_ws hhx
        · rfl
      · simp only [List.mem_singleton] at hc3
        subst hc3
        rfl
  have h0b : (c0 == '{') = false := beq_false_of_ne (hex_ne hhex0 (by decide))
  have h0c : (c0 == '}') = false := beq_false_of_ne (hex_ne hhex0 (by decide))
  have hlb : (cl == '{') = false := beq_false_of_ne (hex_ne hhexl (by decide))
  have hlc : (cl == '}') = false := beq_false_of_ne (hex_ne hhexl (by decide))
  have hbrl : (('}' : Char) == '{') = false := by decide
  have hstep1 : trimMatchesChar '{' ('{' :: (X ++ ['}'])) = X ++ ['}'] := by
    cases X with
    | nil => exact Option.noConfusion hh
    | cons x xs =>
      simp only [List.head?_cons, Option.some.injEq] at hh
      subst hh
      refine trimMatchesChar_strip_head ?_ h0b ?_ hbrl
      · rw [List.cons_append]
        rfl
      · rw [List.getLast?_append_of_ne_nil _ (by simp)]
        rfl
  have hstep2 : trimMatchesChar '}' (X ++ ['}']) = X :=
    trimMatchesChar_strip_last hh h0c hl hlc
  have htrim : trimMatchesChar '}' (trimMatchesChar '{'
      (rustTrim ('{' :: (X ++ ['}'])))) = X := by
    rw [rustTrim_all_not_ws hws, hstep1, hstep2]
  simp only [parse_uuid]
  rw [htrim, huuid]

theorem parse_uuid_hex32 {ds : List Char} (h32 : ds.length = 32)
    (hhex : ∀ c ∈ ds, isHexDigitC c = true) :
    parse_uuid (String.mk ds) = some (hexValue ds) :=
  parse_uuid_of_clean (fun c hc => Or.inl (hhex c hc))
    (uuidParseStr_hex32 h32 hhex)

theorem parse_uuid_hyphenated {ds : List Char} (h32 : ds.length = 32)
    (hhex : ∀ c ∈ ds, isHexDigitC c = true) :
    parse_uuid (String.mk (hyphenate ds)) = some (hexValue ds) :=
  parse_uuid_of_clean
    (fun c hc => (hyphenate_mem c hc).imp (hhex c) id)
    (uuidParseStr_hyphenate h32 hhex)

theorem parse_uuid_braced_simple {ds : List Char} (h32 : ds.length = 32)
    (hhex : ∀ c ∈ ds, isHexDigitC c = true) :
    parse_uuid (String.mk ('{' :: (ds ++ ['}']))) = some (hexValue ds) := by
  obtain ⟨d0, dt, hds⟩ : ∃ d0 dt, ds = d0 :: dt := by
    cases ds with
    | nil => simp at h32
    | cons a l => exact ⟨a, l, rfl⟩
  have hne : ds ≠ [] := by rw [hds]; exact List.cons_ne_nil _ _
  obtain ⟨cl, hcl, hclmem⟩ := exists_getLast_mem hne
  exact parse_uuid_of_braced (by rw [hds]; rfl)
    (hhex d0 (by rw [hds]; exact List.mem_cons_self _ _))
    hcl (hhex cl hclmem)
    (fun c hc => Or.inl (hhex c hc)) (uuidParseStr_hex32 h32 hhex)

theorem parse_uuid_braced_hyphenated {ds : List Char} (h32 : ds.length = 32)
    (hhex : ∀ c ∈ ds, isHexDigitC c = true) :
    parse_uuid (String.mk ('{' :: (hyphenate ds ++ ['}']))) =
      some (hexValue ds) := by
  obtain ⟨d0, dt, hds⟩ : ∃ d0 dt, ds = d0 :: dt := by
    cases ds with
    | nil => simp at h32
    | cons a l => exact ⟨a, l, rfl⟩
  obtain ⟨Z, hZ⟩ : ∃ Z, hyphenate ds = d0 :: Z := by
    subst hds
    exact ⟨_, rfl⟩
  have hr4len : ((((ds.drop 8).drop 4).drop 4).drop 4).length = 12 := by
    simp [h32]
  have hr4ne : (((ds.drop 8).drop 4).drop 4).drop 4 ≠ [] := by
    intro hnil
    rw [hnil] at hr4len
    simp at hr4len
  have hlast : (hyphenate ds).getLast? =
      ((((ds.drop 8).drop 4).drop 4).drop 4).getLast? := by
    unfold hyphenate
    rw [getLast?_append_cons (by simp), getLast?_append_cons (by simp),
      getLast?_append_cons (by simp), getLast?_append_cons hr4ne]
  obtain ⟨cl, hcl, hclmem⟩ := exists_getLast_mem hr4ne
  have hclds : cl ∈ ds := List.mem_of_mem_drop
    (List.mem_of_mem_drop (List.mem_of_mem_drop (List.mem_of_mem_drop hclmem)))
  exact parse_uuid_of_braced (by rw [hZ]; rfl)
    (hhex d0 (by rw [hds]; exact List.mem_cons_self _ _))
    (by rw [hlast]; exact hcl) (hhex cl hclds)
    (fun c hc => (hyphenate_mem c hc).imp (hhex c) id)
    (uuidParseStr_hyphenate h32 hhex)

theorem parse_selector_uuid_concrete (p : String)
    (hp : p.data.map asciiLowerChar = "uuid:".data)
    (hplen : p.data.length = 5) (t : String) :
    parse_selector (p ++ t) = (SelectorMode.uuid, rustTrimS t) := by
  unfold parse_selector
  have hdata : (p ++ t).data = p.data ++ t.data := rfl
  have hc : ((p ++ t).data.map asciiLowerChar).take 5 = "uuid:".data := by
    rw [hdata, List.map_append, hp,
      show (5 : Nat) = ("uuid:".data).length from rfl, List.take_left]
  rw [if_pos hc, hdata,
    show (5 : Nat) = p.data.length from hplen.symm, List.drop_left]

theorem parse_selector_title_concrete (p : String)
    (hp : p.data.map asciiLowerChar = "title:".data)
    (hplen : p.data.length = 6) (t : String) :
    parse_selector (p ++ t) = (SelectorMode.title, rustTrimS t) := by
  unfold parse_selector
  have hdata : (p ++ t).data = p.data ++ t.data := rfl
  have hc5 : ¬ ((p ++ t).data.map asciiLowerChar).take 5 = "uuid:".data := by
    rw [hdata, List.map_append, hp]
    rw [List.take_append_of_le_length (by rw [show ("title:".data).length = 6 from rfl]; omega)]
    decide
  have hc6 : ((p ++ t).data.map asciiLowerChar).take 6 = "title:".data := by
    rw [hdata, List.map_append, hp,
      show (6 : Nat) = ("title:".data).length from rfl, List.take_left]
  rw [if_neg hc5, if_pos hc6, hdata,
    show (6 : Nat) = p.data.length from hplen.symm, List.drop_left]

theorem find_entry_uuid_mode (store : KeePassStore) (sel tok : String)
    (hps : parse_selector (rustTrimS sel) = (SelectorMode.uuid, tok)) :
    (parse_uuid tok = none → find_entry store sel = none) ∧
    (∀ u, parse_uuid tok = some u →
      ((find_entry store sel = none ↔
        ∀ e ∈ entriesOf store.root, e.uuid ≠ u) ∧
       (∀ e, find_entry store sel = some e → e.uuid = u))) := by
  have hfe0 : find_entry store sel =
      (match parse_uuid tok with
       | none => none
       | some u => findFirstEntry? store.root (fun e => decide (e.uuid = u))) := by
    simp only [find_entry]
    rw [hps]
  constructor
  · intro hu
    rw [hfe0, hu]
  · intro u hu
    rw [hfe0, hu]
    dsimp only
    constructor
    · rw [findFirstEntry_none_iff]
      exact forall_congr' (fun e => imp_congr_right (fun _ =>
        bool_false_iff_not (by simp)))
    · intro e he
      exact of_decide_eq_true (findFirstEntry_some _ _ _ he).1

theorem find_entry_title_mode (store : KeePassStore) (sel tok : String)
    (hps : parse_selector (rustTrimS sel) = (SelectorMode.title, tok)) :
    (find_entry store sel = none ↔
      ∀ e ∈ entriesOf store.root, e.get_title ≠ some tok) ∧
    (∀ e, find_entry store sel = some e → e.get_title = some tok) := by
  have hfe0 : find_entry store sel =
      findFirstEntry? store.root (fun e => decide (e.get_title = some tok)) := by
    simp only [find_entry]
    rw [hps]
  rw [hfe0]
  constructor
  · rw [findFirstEntry_none_iff]
    exact forall_congr' (fun e => imp_congr_right (fun _ =>
      bool_false_iff_not (by simp)))
  · intro e he
    exact of_decide_eq_true (findFirstEntry_some _ _ _ he).1

/-- C7: selector prefixes `uuid:`/`title:` are recognized
case-insensitively without case-folding the token body; a `uuid:` selector
matches entries only by UUID equality (accepting the 32-hex, hyphenated,
and brace-wrapped forms of the token) and never by title; a `title:`
selector matches only by exact, case-sensitive title equality. -/
theorem selector_prefix_and_uuid_matching :
    (∀ t : String,
      parse_selector ("uuid:" ++ t) = (SelectorMode.uuid, rustTrimS t) ∧
      parse_selector ("UUID:" ++ t) = (SelectorMode.uuid, rustTrimS t) ∧
      parse_selector ("title:" ++ t) = (SelectorMode.title, rustTrimS t) ∧
      parse_selector ("Title:" ++ t) = (SelectorMode.title, rustTrimS t)) ∧
    (∀ ds : List Char, ds.length = 32 → (∀ c ∈ ds, isHexDigitC c = true) →
      parse_uuid (String.mk ds) = some (hexValue ds) ∧
      parse_uuid (String.mk (hyphenate ds)) = some (hexValue ds) ∧
      parse_uuid (String.mk ('{' :: (ds ++ ['}']))) = some (hexValue ds) ∧
      parse_uuid (String.mk ('{' :: (hyphenate ds ++ ['}']))) =
        some (hexValue ds)) ∧
    (∀ (store : KeePassStore) (sel tok : String),
      parse_selector (rustTrimS sel) = (SelectorMode.uuid, tok) →
      (parse_uuid tok = none → find_entry store sel = none) ∧
      ∀ u, parse_uuid tok = some u →
        ((find_entry store sel = none ↔
          ∀ e ∈ entriesOf store.root, e.uuid ≠ u) ∧
         (∀ e, find_entry store sel = some e → e.uuid = u))) ∧
    (∀ (store : KeePassStore) (sel tok : String),
      parse_selector (rustTrimS sel) = (SelectorMode.title, tok) →
      ((find_entry store sel = none ↔
        ∀ e ∈ entriesOf store.root, e.get_title ≠ some tok) ∧
       (∀ e, find_entry store sel = some e → e.get_title = some tok))) := by
  refine ⟨?_, ?_, ?_, ?_⟩
  · intro t
    exact ⟨parse_selector_uuid_concrete "uuid:" rfl rfl t,
      parse_selector_uuid_concrete "UUID:" rfl rfl t,
      parse_selector_title_concrete "title:" rfl rfl t,
      parse_selector_title_concrete "Title:" rfl rfl t⟩
  · intro ds h32 hhex
    exact ⟨parse_uuid_hex32 h32 hhex, parse_uuid_hyphenated h32 hhex,
      parse_uuid_braced_simple h32 hhex, parse_uuid_braced_hyphenated h32 hhex⟩
  · intro store sel tok hps
    exact find_entry_uuid_mode store sel tok hps
  · intro store sel tok hps
    exact find_entry_title_mode store sel tok hps

/-- C7 witness: concrete prefix parses, the four accepted UUID token
forms, a uuid-selector hit matching only by UUID, and a title-selector
miss on an entry whose title differs only by case. -/
theorem selector_prefix_and_uuid_matching_checks :
    parse_selector "UUID: Tok " = (SelectorMode.uuid, "Tok") ∧
    parse_selector "Title: My Name" = (SelectorMode.title, "My Name") ∧
    parse_uuid "00112233445566778899aabbccddeeff" =
      some (hexValue "00112233445566778899aabbccddeeff".data) ∧
    parse_uuid "00112233-4455-6677-8899-aabbccddeeff" =
      some (hexValue "00112233445566778899aabbccddeeff".data) ∧
    parse_uuid "\x7b00112233445566778899aabbccddeeff\x7d" =
      some (hexValue "00112233445566778899aabbccddeeff".data) ∧
    parse_uuid "\x7b00112233-4455-6677-8899-aabbccddeeff\x7d" =
      some (hexValue "00112233445566778899aabbccddeeff".data) ∧
    (∀ e, find_entry (KeePassStore.mk [Node.entry ⟨7, [("Title", "x")]⟩])
        "uuid:00000000000000000000000000000007" = some e → e.uuid = 7) ∧
    find_entry (KeePassStore.mk [Node.entry ⟨7, [("Title", "abc")]⟩])
      "title:ABC" = none := by
  refine ⟨?_, ?_, ?_, ?_, ?_, ?_, ?_, ?_⟩
  · exact (selector_prefix_and_uuid_matching.1 " Tok ").2.1
  · exact (selector_prefix_and_uuid_matching.1 " My Name").2.2.2
  · exact (selector_prefix_and_uuid_matching.2.1
      "00112233445566778899aabbccddeeff".data (by decide) (by decide)).1
  · exact (selector_prefix_and_uuid_matching.2.1
      "00112233445566778899aabbccddeeff".data (by decide) (by decide)).2.1
  · exact (selector_prefix_and_uuid_matching.2.1
      "00112233445566778899aabbccddeeff".data (by decide) (by decide)).2.2.1
  · exact (selector_prefix_and_uuid_matching.2.1
      "00112233445566778899aabbccddeeff".data (by decide) (by decide)).2.2.2
  · exact fun e he =>
      ((selector_prefix_and_uuid_matching.2.2.1
        (KeePassStore.mk [Node.entry ⟨7, [("Title", "x")]⟩])
        "uuid:00000000000000000000000000000007"
        "00000000000000000000000000000007" rfl).2 7 rfl).2 e he
  · exact (selector_prefix_and_uuid_matching.2.2.2
      (KeePassStore.mk [Node.entry ⟨7, [("Title", "abc")]⟩]) "title:ABC" "ABC"
      rfl).1.mpr (by decide)

end Naslock
